import Mathlib

/- Verification of mtk-log-util (logutil.py).

Shallow embedding of the program in src/logutil.py: a command-line wrapper
around an external device-communication program (mtkclient) that dumps either
the expdb partition or the pstore memory region of a MediaTek device and then
extracts the printable-ASCII strings from the dump.

Interactions with the outside world (the external process, the filesystem) are
modelled by explicit oracle parameters: the outcome of launching the external
command, and the bytes obtained when reading a dump file (None standing for an
OSError / a failed extraction).  Byte buffers are `List Nat` (each entry one
byte value), decoded text is `List Char` / `String`. -/

set_option maxRecDepth 4000

/- ### Global configuration (logutil.py lines 23-30) -/

/-- Global `MTK_CLIENT_CMD = 'python mtkclient/mtk.py'` (line 24). -/
def MTK_CLIENT_CMD : String := "python mtkclient/mtk.py"

/-- Global `MTK_CLIENT_ARGS = ''` (line 27).  This module-level global is the
only thing `extract_with_mtkclient` appends to its command lines; nothing in
the program ever reassigns it (in particular `main` parses `--mtkclient-args`
but never stores the parsed value here). -/
def MTK_CLIENT_ARGS : String := ""

/-- Global `PSTORE_ADDRESS = '0x48090000'` (line 29), the hardcoded default. -/
def PSTORE_ADDRESS : String := "0x48090000"

/-- Global `PSTORE_SIZE = '0xe0000'` (line 30), the hardcoded default. -/
def PSTORE_SIZE : String := "0xe0000"

/- ### run_command (lines 48-70) -/

/-- Outcome of launching the external process in `run_command`: either the
process ran and exited with some return code, or `subprocess.Popen` raised an
OSError. -/
inductive ProcOutcome where
  | exited (code : Int)
  | launchError
  deriving DecidableEq

/-- Embedding of `run_command` (lines 48-70): True exactly when the process was
launched successfully and `process.wait()` returned 0; a non-zero return code
is logged and yields False, and an OSError while launching is caught and
yields False. -/
def run_command : ProcOutcome → Bool
  | .exited code => code == 0
  | .launchError => false

/- ### ASCII string scanning (lines 72-95 and line 117) -/

/-- Membership in the regex character class `[\x20-\x7E]` (printable ASCII). -/
def printable (b : Nat) : Bool := 0x20 ≤ b && b ≤ 0x7E

/-- Fuel-indexed greedy left-to-right scanner for maximal printable runs; the
fuel only serves to make the recursion structural, `asciiRuns` below always
supplies enough of it. -/
def asciiRunsF : Nat → List Nat → List (List Nat)
  | 0, _ => []
  | _ + 1, [] => []
  | fuel + 1, b :: t =>
    if printable b then
      (b :: t.takeWhile printable) :: asciiRunsF fuel (t.dropWhile printable)
    else
      asciiRunsF fuel t

/-- All maximal contiguous runs of printable bytes in the buffer, from left to
right.  This is the matching semantics of `re.findall(rb'[\x20-\x7E]{m,}', data)`
before the length threshold is applied: the regex engine tries each position
from the left, and a greedy counted class repetition consumes a whole maximal
run at once, so the matches are exactly the maximal runs of length at least m
(for m at least 1), in order of occurrence. -/
def asciiRuns (data : List Nat) : List (List Nat) :=
  asciiRunsF (data.length + 1) data

/-- Embedding of `re.findall(rb'[\x20-\x7E]{min_length,}', data)` (line 80 of
`extract_ascii_strings` with its `min_length` parameter, and line 117 of
`_find_pstore_config_in_data` with the literal 4), for min_length at least 1. -/
def re_findall_printable (min_length : Nat) (data : List Nat) : List (List Nat) :=
  (asciiRuns data).filter (fun r => min_length ≤ r.length)

/-- Embedding of `bytes.decode('ascii')` (lines 85 and 122): succeeds exactly
when every byte is below 128, mapping each byte to the character with that
code point; otherwise a UnicodeDecodeError is raised (None). -/
def pyDecodeAscii (bs : List Nat) : Option (List Char) :=
  if bs.all (fun b => b < 128) then some (bs.map Char.ofNat) else none

/-- Header line `f'=== ASCII Strings from {filename} ==='` (line 81). -/
def ascii_header (filename : String) : List Char :=
  ("=== ASCII Strings from " ++ filename ++ " ===").data

/-- Embedding of `'\n'.join(...)` (line 91). -/
def pyJoinNewline : List (List Char) → List Char
  | [] => []
  | [s] => s
  | s :: rest => s ++ '\n' :: pyJoinNewline rest

/-- The `output_lines` list built by `extract_ascii_strings` (lines 81-88):
the header line followed by every found run that decodes as ASCII (the
UnicodeDecodeError continue-branch is the filterMap; it never actually drops
anything because the runs only hold bytes in [0x20, 0x7E]). -/
def extract_ascii_strings_lines (filename : String) (data : List Nat)
    (min_length : Nat) : List (List Char) :=
  ascii_header filename ::
    (re_findall_printable min_length data).filterMap pyDecodeAscii

/-- Text written to `output_file` by `extract_ascii_strings` (lines 72-95),
given the bytes read from `filename`: the lines joined with newlines. -/
def extract_ascii_strings_content (filename : String) (data : List Nat)
    (min_length : Nat) : String :=
  String.mk (pyJoinNewline (extract_ascii_strings_lines filename data min_length))

/-- Observation used to state the output-format claims: the lines of a
character buffer, splitting at every newline character. -/
def splitLines : List Char → List (List Char)
  | [] => [[]]
  | c :: t =>
    if c = '\n' then [] :: splitLines t
    else
      match splitLines t with
      | [] => [[c]]
      | h :: rest => (c :: h) :: rest

/-- Specification-side definition, following the spec's words: the maximal
contiguous runs of printable-ASCII bytes are obtained by splitting the buffer
at every non-printable byte; keep those of length at least min_length, in
left-to-right order. -/
def spec_maximal_runs (min_length : Nat) (data : List Nat) : List (List Nat) :=
  (data.splitOnP (fun b => !printable b)).filter (fun r => min_length ≤ r.length)

/-- Proposition: r occurs in B as a maximal printable run, that is B splits as
u ++ r ++ v where r is a non-empty all-printable run that cannot be extended on
either side (the byte before it, if any, is non-printable, and so is the byte
after it). -/
def MaximalRunAt (B r : List Nat) : Prop :=
  ∃ u v, B = u ++ r ++ v ∧ r ≠ [] ∧ (∀ b ∈ r, printable b = true) ∧
    (∀ c, u.getLast? = some c → printable c = false) ∧
    (∀ c, v.head? = some c → printable c = false)

/- ### The pstore configuration search (lines 114-140) -/

/-- Characters matched by the Python regex class `\s` (whitespace), restricted
to ASCII, which is all that can occur in a decoded printable run. -/
def isPySpace (c : Char) : Bool :=
  c == ' ' || c == '\t' || c == '\n' || c == '\r' || c == '\x0b' || c == '\x0c'

/-- Hex digits, the regex class `[0-9a-fA-F]`. -/
def isHexDigitChar (c : Char) : Bool :=
  ('0' ≤ c && c ≤ '9') || ('a' ≤ c && c ≤ 'f') || ('A' ≤ c && c ≤ 'F')

/-- Case-insensitive character comparison, the effect of `re.IGNORECASE` on
the ASCII characters at hand. -/
def charCIEq (a b : Char) : Bool := a.toLower == b.toLower

/-- Match a literal key case-insensitively at the start of s, returning the
remaining suffix. -/
def dropKeyCI : List Char → List Char → Option (List Char)
  | [], s => some s
  | _ :: _, [] => none
  | k :: ks, c :: cs => if charCIEq k c then dropKeyCI ks cs else none

/-- Greedily consume `[:\s]*`. -/
def dropSeps : List Char → List Char
  | [] => []
  | c :: cs => if c == ':' || isPySpace c then dropSeps cs else c :: cs

/-- Try the pattern `<key>[:\s]*0x([0-9a-fA-F]+)` (with `re.IGNORECASE`) at the
current position, returning the captured digit group.  The greedy quantifiers
need no backtracking here: the class `[:\s]` does not contain '0', so giving
back separator characters can never complete a match, and nothing follows the
final greedy `[0-9a-fA-F]+`, so it simply takes the maximal non-empty digit
run. -/
def matchKeyAt (key : List Char) (s : List Char) : Option (List Char) :=
  match dropKeyCI key s with
  | none => none
  | some rest =>
    match dropSeps rest with
    | c0 :: cx :: rest2 =>
      if c0 == '0' && (cx == 'x' || cx == 'X') then
        match rest2.takeWhile isHexDigitChar with
        | [] => none
        | d :: ds => some (d :: ds)
      else none
    | _ => none

/-- Embedding of `re.search` for the two patterns of lines 125 and 130: the
match at the leftmost position where the pattern matches, scanning positions
from the left. -/
def re_search_hex (key : List Char) : List Char → Option (List Char)
  | [] => matchKeyAt key []
  | c :: cs =>
    match matchKeyAt key (c :: cs) with
    | some digits => some digits
    | none => re_search_hex key cs

/-- The `addr_match` search of line 125 followed by the formatting
`f'0x{addr_match.group(1)}'` of line 127. -/
def search_pstore_addr (s : List Char) : Option String :=
  (re_search_hex "pstore_addr".data s).map (fun ds => String.mk ('0' :: 'x' :: ds))

/-- The `size_match` search of line 130 followed by the formatting
`f'0x{size_match.group(1)}'` of line 132. -/
def search_pstore_size (s : List Char) : Option String :=
  (re_search_hex "pstore_size".data s).map (fun ds => String.mk ('0' :: 'x' :: ds))

/-- Python truthiness of an optional string: None and the empty string are
falsy. -/
def pyTruthy : Option String → Bool
  | none => false
  | some s => !(s == "")

/-- One `if match: var = ...` update of the loop body (lines 125-133): keep
the old value unless the search matched, in which case take the new one. -/
def py_update (old found : Option String) : Option String :=
  match found with
  | some v => some v
  | none => old

/-- The loop of `_find_pstore_config_in_data` (lines 120-138): walk the found
strings in order, overwrite the current address (resp. size) whenever the
corresponding pattern matches the current string, and break as soon as both
are truthy (line 135; a string that raises UnicodeDecodeError is skipped). -/
def find_loop : List (List Nat) → Option String → Option String →
    Option String × Option String
  | [], a, s => (a, s)
  | bs :: rest, a, s =>
    match pyDecodeAscii bs with
    | none => find_loop rest a s
    | some decoded =>
      if pyTruthy (py_update a (search_pstore_addr decoded)) &&
          pyTruthy (py_update s (search_pstore_size decoded)) then
        (py_update a (search_pstore_addr decoded),
          py_update s (search_pstore_size decoded))
      else
        find_loop rest (py_update a (search_pstore_addr decoded))
          (py_update s (search_pstore_size decoded))

/-- Embedding of `_find_pstore_config_in_data` (lines 114-140): scan the
printable strings of length at least 4 for the two patterns. -/
def find_pstore_config_in_data (data : List Nat) : Option String × Option String :=
  find_loop (re_findall_printable 4 data) none none

/-- Embedding of `detect_pstore_addr` (lines 111-172).  The oracle parameter
`expdb_extract` models the interaction with the device and the filesystem:
`some data` when `extract_with_mtkclient('expdb', ...)` succeeded and the raw
dump could be read back, `none` when the extraction returned False (line 146)
or reading raised an OSError (line 170); both failure paths return the
hardcoded default pair.  The partial-match fallbacks are lines 157-168.
Python tests the found values for truthiness there; the values stored by the
search are always of the shape 0x<digits> and hence never the empty string
(theorem find_pstore_config_components_ne_empty below), so truthiness
coincides with presence. -/
def detect_pstore_addr (expdb_extract : Option (List Nat)) : String × String :=
  match expdb_extract with
  | none => (PSTORE_ADDRESS, PSTORE_SIZE)
  | some data =>
    match find_pstore_config_in_data data with
    | (some a, some s) => (a, s)
    | (some a, none) => (a, PSTORE_SIZE)
    | (none, some s) => (PSTORE_ADDRESS, s)
    | (none, none) => (PSTORE_ADDRESS, PSTORE_SIZE)

/-- Python `x or y` for an optional string x: y when x is None or empty. -/
def pyOrStr (x : Option String) (y : String) : String :=
  match x with
  | none => y
  | some s => if s = "" then y else s

/-- Embedding of `resolve_pstore_params` (lines 174-187).  The detection
oracle `expdb_extract` is consulted only in the `auto_detect` branch, which is
the only place `detect_pstore_addr` (and through it the expdb extraction) is
reached. -/
def resolve_pstore_params (pstore_address pstore_size : Option String)
    (auto_detect : Bool) (expdb_extract : Option (List Nat)) : String × String :=
  if auto_detect then
    let d := detect_pstore_addr expdb_extract
    (pyOrStr pstore_address d.1, pyOrStr pstore_size d.2)
  else
    (pyOrStr pstore_address PSTORE_ADDRESS, pyOrStr pstore_size PSTORE_SIZE)

/-- The detected pstore address as the spec speaks of it: the value the
pattern search finds, absent when no pstore_addr pattern occurs in the dump or
when the expdb extraction failed. -/
def detected_addr (expdb_extract : Option (List Nat)) : Option String :=
  expdb_extract.bind (fun d => (find_pstore_config_in_data d).1)

/-- The detected pstore size, analogously. -/
def detected_size (expdb_extract : Option (List Nat)) : Option String :=
  expdb_extract.bind (fun d => (find_pstore_config_in_data d).2)

/- ### Command construction (extract_with_mtkclient, lines 97-109) -/

/-- Command string built by `extract_with_mtkclient` for
`extraction_type == 'expdb'` (line 104): the f-string over `MTK_CLIENT_CMD`,
the output filename and the module global `MTK_CLIENT_ARGS`. -/
def expdb_cmd (output_filename : String) : String :=
  MTK_CLIENT_CMD ++ " r expdb " ++ output_filename ++ " " ++ MTK_CLIENT_ARGS

/-- Command string built by `extract_with_mtkclient` for
`extraction_type == 'pstore'` (lines 106-107), including the conditional
'da' piece. -/
def pstore_cmd (output_filename address size : String) (da : Bool) : String :=
  MTK_CLIENT_CMD ++ " " ++ (if da then "da" else "") ++ " peek " ++ address ++ " " ++
    size ++ " " ++ "--filename " ++ output_filename ++ " " ++ MTK_CLIENT_ARGS

/- ### CLI surface (main, lines 219-278) -/

/-- The positional `command` argument, `choices=['expdb', 'pstore']`. -/
inductive Cmd where
  | expdb
  | pstore
  deriving DecidableEq

/-- The argparse namespace produced at line 261. -/
structure Args where
  command : Cmd
  filename : String
  mtkclient_args : Option String
  pstore_address : Option String
  pstore_size : Option String
  auto_detect_pstore : Bool
  dont_peek_via_da : Bool
  deriving DecidableEq

/-- Embedding of the argparse semantics of lines 226-261.  The string options
default to None.  `--auto-detect-pstore` is `action='store_true'`: the field
is True exactly when the flag is supplied.  `--dont-peek-via-da` is
`action='store_false'`: the field defaults to True and is False exactly when
the flag is supplied. -/
def parse_args (command : Cmd) (filename : String)
    (mtkclient_args pstore_address pstore_size : Option String)
    (auto_detect_supplied dont_peek_supplied : Bool) : Args :=
  { command := command
    filename := filename
    mtkclient_args := mtkclient_args
    pstore_address := pstore_address
    pstore_size := pstore_size
    auto_detect_pstore := auto_detect_supplied
    dont_peek_via_da := !dont_peek_supplied }

/-- Condition under which line 264 logs the wrong-command warning, with Python
operator precedence applied to line 263:
`args.auto_detect_pstore or (args.dont_peek_via_da and args.command != 'pstore')`. -/
def warning_condition (a : Args) : Bool :=
  a.auto_detect_pstore || (a.dont_peek_via_da && decide (a.command ≠ Cmd.pstore))

/- ### The two extraction pipelines (lines 189-217) -/

/-- Observable result of one run of `extract_expdb` / `extract_pstore`: the
external command line that was issued, the boolean returned to `main`, whether
`extract_ascii_strings` was reached, and the text written to the output file
(None when no file was written). -/
structure ExtractOutcome where
  command_line : String
  success : Bool
  scanner_invoked : Bool
  output_written : Option String
  deriving DecidableEq

/-- Embedding of `extract_expdb` (lines 189-201).  `raw_filename` is the
temporary dump path (it appears in the output header); `cmd_outcome` is the
oracle for the external command; `raw_read` is the oracle for reading the dump
back (`none` models the OSError branch of `extract_ascii_strings`, which
writes nothing).  On command failure the function logs and returns False
without ever calling `extract_ascii_strings`. -/
def extract_expdb (raw_filename : String) (cmd_outcome : ProcOutcome)
    (raw_read : Option (List Nat)) : ExtractOutcome :=
  if run_command cmd_outcome then
    { command_line := expdb_cmd raw_filename
      success := true
      scanner_invoked := true
      output_written :=
        raw_read.map (fun data => extract_ascii_strings_content raw_filename data 4) }
  else
    { command_line := expdb_cmd raw_filename
      success := false
      scanner_invoked := false
      output_written := none }

/-- Embedding of `extract_pstore` (lines 203-217): resolve the parameters
(possibly consulting the detection oracle), issue the peek command, and on
success scan the dump. -/
def extract_pstore (raw_filename : String)
    (pstore_address pstore_size : Option String) (auto_detect : Bool) (da : Bool)
    (expdb_extract : Option (List Nat)) (cmd_outcome : ProcOutcome)
    (raw_read : Option (List Nat)) : ExtractOutcome :=
  let r := resolve_pstore_params pstore_address pstore_size auto_detect expdb_extract
  if run_command cmd_outcome then
    { command_line := pstore_cmd raw_filename r.1 r.2 da
      success := true
      scanner_invoked := true
      output_written :=
        raw_read.map (fun data => extract_ascii_strings_content raw_filename data 4) }
  else
    { command_line := pstore_cmd raw_filename r.1 r.2 da
      success := false
      scanner_invoked := false
      output_written := none }

/-- Dispatch of `main` on the parsed command (lines 269-276).  Note which
pieces of the namespace flow where: the pstore options are passed to
`extract_pstore`, while `args.mtkclient_args` flows nowhere. -/
def main_dispatch (a : Args) (raw_filename : String)
    (expdb_extract : Option (List Nat)) (cmd_outcome : ProcOutcome)
    (raw_read : Option (List Nat)) : ExtractOutcome :=
  match a.command with
  | .expdb => extract_expdb raw_filename cmd_outcome raw_read
  | .pstore =>
    extract_pstore raw_filename a.pstore_address a.pstore_size
      a.auto_detect_pstore a.dont_peek_via_da expdb_extract cmd_outcome raw_read

/- ### Process exit status (lines 282-283) -/

/-- What the top level of a Python script can do: fall off the end of the
`if __name__ == '__main__'` block (the interpreter then exits with status 0,
whatever values were computed along the way), or call `sys.exit` with a code. -/
inductive TopLevelAction where
  | returnedNormally (value : Bool)
  | calledSysExit (code : Nat)

/-- Process exit status resulting from a top-level action under CPython
semantics. -/
def python_exit_code : TopLevelAction → Nat
  | .returnedNormally _ => 0
  | .calledSysExit c => c

/-- Embedding of lines 282-283: `main()` is called as a bare expression
statement, its boolean result is discarded, and the script falls off the end;
no `sys.exit` call appears anywhere in the program. -/
def logutil_top_level (main_result : Bool) : TopLevelAction :=
  .returnedNormally main_result

/- ### Concrete data used by witnesses -/

/-- Concrete dump used in witnesses: the text `pstore_addr: 0x2000`, one
non-printable byte, then the text `pstore_size: 0x300`. -/
def sample_expdb_bytes : List Nat :=
  ("pstore_addr: 0x2000".data.map Char.toNat) ++ [1] ++
    ("pstore_size: 0x300".data.map Char.toNat)

/- ### Helper lemmas -/

theorem dropWhile_length_le {α} (p : α → Bool) (l : List α) :
    (l.dropWhile p).length ≤ l.length := by
  induction l with
  | nil => simp [List.dropWhile]
  | cons a t ih =>
    rw [List.dropWhile_cons]
    cases hp : p a
    · simp
    · simpa using Nat.le_succ_of_le ih

theorem head_dropWhile_eq_false {α} (p : α → Bool) (l : List α) :
    ∀ x, (l.dropWhile p).head? = some x → p x = false := by
  induction l with
  | nil => intro x h; simp [List.dropWhile] at h
  | cons a t ih =>
    intro x h
    rw [List.dropWhile_cons] at h
    cases hp : p a
    · rw [hp] at h
      simp at h
      rw [← h]
      exact hp
    · rw [hp] at h
      simp at h
      exact ih x h

theorem asciiRunsF_eq_of_lt :
    ∀ (f g : Nat) (l : List Nat), l.length < f → l.length < g →
      asciiRunsF f l = asciiRunsF g l := by
  intro f
  induction f with
  | zero => intro g l hf _; exact absurd hf (Nat.not_lt_zero _)
  | succ f ih =>
    intro g l hf hg
    cases g with
    | zero => exact absurd hg (Nat.not_lt_zero _)
    | succ g =>
      cases l with
      | nil => rfl
      | cons b t =>
        have ht : t.length < f := Nat.lt_of_succ_lt_succ hf
        have ht' : t.length < g := Nat.lt_of_succ_lt_succ hg
        simp only [asciiRunsF]
        cases hb : printable b
        · simp only [hb, Bool.false_eq_true, if_false]
          exact ih g t ht ht'
        · simp only [hb, if_true]
          rw [ih g _ (Nat.lt_of_le_of_lt (dropWhile_length_le _ _) ht)
            (Nat.lt_of_le_of_lt (dropWhile_length_le _ _) ht')]

theorem asciiRuns_nil : asciiRuns [] = [] := rfl

theorem asciiRuns_cons (b : Nat) (t : List Nat) :
    asciiRuns (b :: t) =
      if printable b then
        (b :: t.takeWhile printable) :: asciiRuns (t.dropWhile printable)
      else asciiRuns t := by
  show asciiRunsF (t.length + 1 + 1) (b :: t) = _
  simp only [asciiRunsF]
  cases hb : printable b
  · simp only [hb, Bool.false_eq_true, if_false]
    rfl
  · simp only [hb, if_true, asciiRuns]
    rw [asciiRunsF_eq_of_lt _ _ _
      (Nat.lt_succ_of_le (dropWhile_length_le _ _)) (Nat.lt_succ_self _)]

theorem mem_asciiRuns_maximal :
    ∀ (n : Nat) (l : List Nat), l.length ≤ n → ∀ r ∈ asciiRuns l, MaximalRunAt l r := by
  intro n
  induction n with
  | zero =>
    intro l hl r hr
    have : l = [] := List.length_eq_zero.mp (Nat.le_zero.mp hl)
    subst this
    simp [asciiRuns_nil] at hr
  | succ n ih =>
    intro l hl r hr
    cases l with
    | nil => simp [asciiRuns_nil] at hr
    | cons b t =>
      rw [asciiRuns_cons] at hr
      cases hb : printable b
      · rw [hb] at hr
        simp only [Bool.false_eq_true, if_false] at hr
        obtain ⟨u, v, hBuv, hne, hpr, hlast, hhead⟩ :=
          ih t (Nat.le_of_succ_le_succ hl) r hr
        refine ⟨b :: u, v, by simp [hBuv], hne, hpr, ?_, hhead⟩
        intro c hc
        cases u with
        | nil =>
          simp at hc
          rw [← hc]
          exact hb
        | cons u0 us =>
          rw [List.getLast?_cons_cons] at hc
          exact hlast c hc
      · rw [hb] at hr
        simp only [if_true, List.mem_cons] at hr
        rcases hr with hr | hr
        · subst hr
          refine ⟨[], t.dropWhile printable, ?_, List.cons_ne_nil _ _, ?_, ?_, ?_⟩
          · rw [List.nil_append, List.cons_append, List.takeWhile_append_dropWhile]
          · intro x hx
            rcases List.mem_cons.mp hx with hx | hx
            · rw [hx]; exact hb
            · exact List.mem_takeWhile_imp hx
          · intro c hc; simp at hc
          · intro c hc
            exact head_dropWhile_eq_false printable t c hc
        · have hlen : (t.dropWhile printable).length ≤ n :=
            Nat.le_trans (dropWhile_length_le _ _) (Nat.le_of_succ_le_succ hl)
          obtain ⟨u, v, hBuv, hne, hpr, hlast, hhead⟩ := ih _ hlen r hr
          cases u with
          | nil =>
            exfalso
            rw [List.nil_append] at hBuv
            obtain ⟨r0, rt, hr0⟩ := List.exists_cons_of_ne_nil hne
            have h1 : (t.dropWhile printable).head? = some r0 := by
              rw [hBuv, hr0]
              rfl
            have h2 : printable r0 = false := head_dropWhile_eq_false printable t r0 h1
            have h3 : printable r0 = true := hpr r0 (by rw [hr0]; exact List.mem_cons_self _ _)
            rw [h2] at h3
            exact Bool.false_ne_true h3
          | cons u0 us =>
            refine ⟨(b :: t.takeWhile printable) ++ (u0 :: us), v, ?_, hne, hpr, ?_, hhead⟩
            · simp only [List.cons_append, List.append_assoc]
              simp only [List.cons_append, List.append_assoc] at hBuv
              rw [← hBuv, List.takeWhile_append_dropWhile]
            · intro c hc
              rw [List.getLast?_append] at hc
              obtain ⟨d, hd⟩ := Option.isSome_iff_exists.mp
                (List.getLast?_isSome.mpr (List.cons_ne_nil u0 us))
              rw [hd] at hc
              have hc' : d = c := Option.some.inj hc
              exact hlast c (hc' ▸ hd)

theorem mem_asciiRuns_maximalRun {l r : List Nat} (h : r ∈ asciiRuns l) :
    MaximalRunAt l r :=
  mem_asciiRuns_maximal l.length l (Nat.le_refl _) r h

theorem mem_asciiRuns_printable {l r : List Nat} (h : r ∈ asciiRuns l) :
    r ≠ [] ∧ ∀ b ∈ r, printable b = true := by
  obtain ⟨_, _, _, hne, hpr, _, _⟩ := mem_asciiRuns_maximalRun h
  exact ⟨hne, hpr⟩

theorem asciiRuns_eq_splitOnP_aux :
    ∀ (n : Nat) (l : List Nat), l.length ≤ n →
      asciiRuns l = (l.splitOnP (fun b => !printable b)).filter (fun r => !r.isEmpty) := by
  intro n
  induction n with
  | zero =>
    intro l hl
    have : l = [] := List.length_eq_zero.mp (Nat.le_zero.mp hl)
    subst this
    simp [asciiRuns_nil, List.splitOnP_nil]
  | succ n ih =>
    intro l hl
    cases l with
    | nil => simp [asciiRuns_nil, List.splitOnP_nil]
    | cons b t =>
      rw [asciiRuns_cons]
      cases hb : printable b
      · rw [List.splitOnP_cons]
        simp only [hb, Bool.not_false, if_true, Bool.false_eq_true, if_false,
          List.filter_cons, List.isEmpty_nil, Bool.not_true]
        exact ih t (Nat.le_of_succ_le_succ hl)
      · simp only [hb, if_true]
        cases hD : t.dropWhile printable with
        | nil =>
          have htake : t.takeWhile printable = t := by
            have h1 := List.takeWhile_append_dropWhile printable t
            rw [hD, List.append_nil] at h1
            exact h1
          have hall : ∀ x ∈ b :: t, ¬((fun y => !printable y) x = true) := by
            intro x hx
            rcases List.mem_cons.mp hx with hx | hx
            · rw [hx]
              simp [hb]
            · have : x ∈ t.takeWhile printable := htake.symm ▸ hx
              simp [List.mem_takeWhile_imp this]
          rw [List.splitOnP_eq_single _ _ hall]
          rw [htake, asciiRuns_nil]
          simp
        | cons c rest =>
          have hc : printable c = false :=
            head_dropWhile_eq_false printable t c (by rw [hD]; rfl)
          have hshape : b :: t = (b :: t.takeWhile printable) ++ c :: rest := by
            rw [List.cons_append]
            rw [show t.takeWhile printable ++ c :: rest = t from by
              rw [← hD, List.takeWhile_append_dropWhile]]
          have hall : ∀ x ∈ b :: t.takeWhile printable,
              ¬((fun y => !printable y) x = true) := by
            intro x hx
            rcases List.mem_cons.mp hx with hx | hx
            · rw [hx]
              simp [hb]
            · simp [List.mem_takeWhile_imp hx]
          rw [hshape, List.splitOnP_first _ _ hall c (by simp [hc]) rest]
          have hrest : rest.length ≤ n := by
            have h1 : (t.dropWhile printable).length ≤ t.length := dropWhile_length_le _ _
            rw [hD] at h1
            simp only [List.length_cons] at h1
            have h2 : t.length ≤ n := Nat.le_of_succ_le_succ hl
            omega
          rw [List.filter_cons]
          simp only [List.isEmpty_cons, Bool.not_false, if_true]
          rw [asciiRuns_cons, hc]
          simp only [Bool.false_eq_true, if_false]
          rw [ih rest hrest]

theorem asciiRuns_eq_splitOnP (l : List Nat) :
    asciiRuns l = (l.splitOnP (fun b => !printable b)).filter (fun r => !r.isEmpty) :=
  asciiRuns_eq_splitOnP_aux l.length l (Nat.le_refl _)

theorem re_findall_eq_spec_maximal_runs {m : Nat} (hm : 1 ≤ m) (data : List Nat) :
    re_findall_printable m data = spec_maximal_runs m data := by
  unfold re_findall_printable spec_maximal_runs
  rw [asciiRuns_eq_splitOnP, List.filter_filter]
  apply List.filter_congr
  intro r _
  cases r with
  | nil => simp; omega
  | cons x xs => simp

theorem splitLines_no_newline {l : List Char} (h : '\n' ∉ l) : splitLines l = [l] := by
  induction l with
  | nil => rfl
  | cons c t ih =>
    have hc : ¬(c = '\n') := fun e => h (e ▸ List.mem_cons_self c t)
    have ht : '\n' ∉ t := fun m => h (List.mem_cons_of_mem _ m)
    simp only [splitLines, if_neg hc, ih ht]

theorem splitLines_append_newline {l rest : List Char} (h : '\n' ∉ l) :
    splitLines (l ++ '\n' :: rest) = l :: splitLines rest := by
  induction l with
  | nil => simp [splitLines]
  | cons c t ih =>
    have hc : ¬(c = '\n') := fun e => h (e ▸ List.mem_cons_self c t)
    have ht : '\n' ∉ t := fun m => h (List.mem_cons_of_mem _ m)
    simp only [List.cons_append, splitLines, if_neg hc, List.append_eq, ih ht]

theorem splitLines_pyJoin :
    ∀ (lss : List (List Char)) (l0 : List Char), '\n' ∉ l0 → (∀ l ∈ lss, '\n' ∉ l) →
      splitLines (pyJoinNewline (l0 :: lss)) = l0 :: lss := by
  intro lss
  induction lss with
  | nil =>
    intro l0 h0 _
    exact splitLines_no_newline h0
  | cons l1 ls ih =>
    intro l0 h0 hall
    rw [show pyJoinNewline (l0 :: l1 :: ls) = l0 ++ '\n' :: pyJoinNewline (l1 :: ls) from rfl]
    rw [splitLines_append_newline h0,
      ih l1 (hall l1 (List.mem_cons_self _ _)) (fun l m => hall l (List.mem_cons_of_mem _ m))]

theorem toNat_ofNat_small {n : Nat} (h : n < 55296) : (Char.ofNat n).toNat = n := by
  have hv : n.isValidChar := Or.inl h
  simp only [Char.ofNat, hv, dif_pos, Char.toNat]
  rfl

theorem ofNat_ne_newline {b : Nat} (hb : printable b = true) : Char.ofNat b ≠ '\n' := by
  intro hc
  have h1 : 32 ≤ b ∧ b ≤ 126 := by simpa [printable] using hb
  have h2 : (Char.ofNat b).toNat = b := toNat_ofNat_small (by omega)
  rw [hc] at h2
  have h3 : (10 : Nat) = b := h2
  omega

theorem pyDecodeAscii_of_printable {bs : List Nat} (h : ∀ b ∈ bs, printable b = true) :
    pyDecodeAscii bs = some (bs.map Char.ofNat) := by
  unfold pyDecodeAscii
  rw [if_pos]
  rw [List.all_eq_true]
  intro b hb
  have := h b hb
  simp only [printable, Bool.and_eq_true, decide_eq_true_eq] at this
  simp only [decide_eq_true_eq]
  omega

theorem filterMap_eq_map_of_some {α β : Type} (f : α → Option β) (g : α → β) :
    ∀ (l : List α), (∀ x ∈ l, f x = some (g x)) → l.filterMap f = l.map g := by
  intro l
  induction l with
  | nil => intro _; rfl
  | cons a t ih =>
    intro h
    rw [List.filterMap_cons, h a (List.mem_cons_self a t), List.map_cons,
      ih (fun x hx => h x (List.mem_cons_of_mem _ hx))]

theorem ascii_header_no_newline {filename : String} (hf : '\n' ∉ filename.data) :
    '\n' ∉ ascii_header filename := by
  have hdec : ascii_header filename =
      "=== ASCII Strings from ".data ++ filename.data ++ " ===".data := rfl
  rw [hdec]
  intro hm
  rcases List.mem_append.mp hm with hm | hm
  · rcases List.mem_append.mp hm with hm | hm
    · exact absurd hm (by decide)
    · exact hf hm
  · exact absurd hm (by decide)

theorem search_pstore_addr_ne_empty {s : List Char} {v : String}
    (h : search_pstore_addr s = some v) : v ≠ "" := by
  unfold search_pstore_addr at h
  cases hq : re_search_hex "pstore_addr".data s with
  | none => rw [hq] at h; simp at h
  | some ds =>
    rw [hq] at h
    have h2 : String.mk ('0' :: 'x' :: ds) = v := Option.some.inj h
    intro hc
    rw [← h2] at hc
    simpa using congrArg String.data hc

theorem search_pstore_size_ne_empty {s : List Char} {v : String}
    (h : search_pstore_size s = some v) : v ≠ "" := by
  unfold search_pstore_size at h
  cases hq : re_search_hex "pstore_size".data s with
  | none => rw [hq] at h; simp at h
  | some ds =>
    rw [hq] at h
    have h2 : String.mk ('0' :: 'x' :: ds) = v := Option.some.inj h
    intro hc
    rw [← h2] at hc
    simpa using congrArg String.data hc

theorem py_update_ne_empty {old found : Option String}
    (hold : ∀ v, old = some v → v ≠ "")
    (hfound : ∀ v, found = some v → v ≠ "") :
    ∀ v, py_update old found = some v → v ≠ "" := by
  intro v hv
  cases found with
  | none => exact hold v hv
  | some w => exact hfound v hv

theorem find_loop_ne_empty :
    ∀ (L : List (List Nat)) (a s : Option String),
      (∀ v, a = some v → v ≠ "") → (∀ v, s = some v → v ≠ "") →
      (∀ v, (find_loop L a s).1 = some v → v ≠ "") ∧
      (∀ v, (find_loop L a s).2 = some v → v ≠ "") := by
  intro L
  induction L with
  | nil => intro a s ha hs; exact ⟨ha, hs⟩
  | cons bs rest ih =>
    intro a s ha hs
    cases hd : pyDecodeAscii bs with
    | none =>
      rw [find_loop]
      simp only [hd]
      exact ih a s ha hs
    | some decoded =>
      rw [find_loop]
      simp only [hd]
      have ha2 := py_update_ne_empty ha
        (fun v hv => search_pstore_addr_ne_empty (s := decoded) hv)
      have hs2 := py_update_ne_empty hs
        (fun v hv => search_pstore_size_ne_empty (s := decoded) hv)
      split
      · exact ⟨ha2, hs2⟩
      · exact ih _ _ ha2 hs2

theorem find_pstore_config_components_ne_empty (data : List Nat) :
    (∀ v, (find_pstore_config_in_data data).1 = some v → v ≠ "") ∧
    (∀ v, (find_pstore_config_in_data data).2 = some v → v ≠ "") :=
  find_loop_ne_empty _ none none (fun v h => Option.noConfusion h)
    (fun v h => Option.noConfusion h)

theorem detected_addr_ne_empty {e : Option (List Nat)} {v : String}
    (h : detected_addr e = some v) : v ≠ "" := by
  cases e with
  | none => exact Option.noConfusion h
  | some data =>
    exact (find_pstore_config_components_ne_empty data).1 v
      (by simpa [detected_addr] using h)

theorem detected_size_ne_empty {e : Option (List Nat)} {v : String}
    (h : detected_size e = some v) : v ≠ "" := by
  cases e with
  | none => exact Option.noConfusion h
  | some data =>
    exact (find_pstore_config_components_ne_empty data).2 v
      (by simpa [detected_size] using h)

theorem detect_pstore_addr_eq (e : Option (List Nat)) :
    detect_pstore_addr e =
      ((detected_addr e).getD PSTORE_ADDRESS, (detected_size e).getD PSTORE_SIZE) := by
  cases e with
  | none => rfl
  | some data =>
    rcases hp : find_pstore_config_in_data data with ⟨a?, s?⟩
    simp only [detect_pstore_addr, detected_addr, detected_size, hp, Option.some_bind]
    cases a? <;> cases s? <;> rfl

theorem pyOrStr_eq_getD (x : Option String) (y : String)
    (hx : ∀ s, x = some s → s ≠ "") : pyOrStr x y = x.getD y := by
  cases x with
  | none => rfl
  | some s => simp [pyOrStr, hx s rfl]

theorem pyOrStr_ne_empty (x : Option String) (y : String) (hy : y ≠ "") :
    pyOrStr x y ≠ "" := by
  cases x with
  | none => exact hy
  | some s =>
    by_cases h : s = ""
    · simpa [pyOrStr, h] using hy
    · simpa [pyOrStr, h] using h

theorem pyOrStr_cases (x : Option String) (y : String) :
    pyOrStr x y = y ∨ ∃ s, x = some s ∧ pyOrStr x y = s := by
  cases x with
  | none => exact Or.inl rfl
  | some s =>
    by_cases h : s = ""
    · exact Or.inl (by simp [pyOrStr, h])
    · exact Or.inr ⟨s, rfl, by simp [pyOrStr, h]⟩

/- ### Claim theorems -/

/-- C1: the claim says the string supplied via --mtkclient-args is appended
verbatim to the external command lines.  The code parses the flag but never
stores it into the module global MTK_CLIENT_ARGS that the command construction
reads, so the built command lines are identical whatever value is supplied,
and a supplied value never occurs in them: both the expdb read command and the
pstore peek command evaluate to the fixed strings below (ending in the empty
default), and the supplied text "--serialport" is not an infix of either. -/
theorem mtkclient_args_never_appended :
    (∀ (extra : Option String) (raw : String),
        (main_dispatch (parse_args Cmd.expdb "out.txt" extra none none false false)
            raw none (ProcOutcome.exited 0) none).command_line =
          (main_dispatch (parse_args Cmd.expdb "out.txt" none none none false false)
            raw none (ProcOutcome.exited 0) none).command_line) ∧
    (main_dispatch (parse_args Cmd.expdb "out.txt" (some "--serialport") none none false false)
        "tmp/expdb.bin" none (ProcOutcome.exited 0) none).command_line =
      "python mtkclient/mtk.py r expdb tmp/expdb.bin " ∧
    ¬ ("--serialport".data <:+:
        (main_dispatch (parse_args Cmd.expdb "out.txt" (some "--serialport") none none false false)
          "tmp/expdb.bin" none (ProcOutcome.exited 0) none).command_line.data) ∧
    (main_dispatch (parse_args Cmd.pstore "out.txt" (some "--serialport") none none false false)
        "tmp/pstore.bin" none (ProcOutcome.exited 0) none).command_line =
      "python mtkclient/mtk.py da peek 0x48090000 0xe0000 --filename tmp/pstore.bin " ∧
    ¬ ("--serialport".data <:+:
        (main_dispatch (parse_args Cmd.pstore "out.txt" (some "--serialport") none none false false)
          "tmp/pstore.bin" none (ProcOutcome.exited 0) none).command_line.data) := by
  refine ⟨fun extra raw => rfl, by decide, by decide, by decide, by decide⟩

/-- C2: with auto-detect enabled, resolve_pstore_params yields, independently
for address and size, the CLI override if present, else the detected value if
present, else the hardcoded default ('0x48090000' / '0xe0000').  The
hypotheses record that a present CLI override is a non-empty string (Python
tests the override for truthiness, so an empty-string override would behave
like an absent one). -/
theorem resolve_auto_detect_precedence (ov os : Option String)
    (e : Option (List Nat))
    (hov : ∀ s, ov = some s → s ≠ "") (hos : ∀ s, os = some s → s ≠ "") :
    resolve_pstore_params ov os true e =
      (ov.getD ((detected_addr e).getD PSTORE_ADDRESS),
       os.getD ((detected_size e).getD PSTORE_SIZE)) := by
  have h1 : resolve_pstore_params ov os true e =
      (pyOrStr ov (detect_pstore_addr e).1, pyOrStr os (detect_pstore_addr e).2) := rfl
  rw [h1, detect_pstore_addr_eq]
  rw [pyOrStr_eq_getD ov _ hov, pyOrStr_eq_getD os _ hos]

/-- Witness for C2: an explicit address override combined with a size detected
from a concrete expdb dump; the override wins for the address while the
detected value fills the size. -/
theorem resolve_auto_detect_precedence_witness :
    (∀ s : String, some "0x1000" = some s → s ≠ "") ∧
    (∀ s : String, (none : Option String) = some s → s ≠ "") ∧
    resolve_pstore_params (some "0x1000") none true (some sample_expdb_bytes) =
      ("0x1000", "0x300") := by
  have hov : ∀ s : String, some "0x1000" = some s → s ≠ "" := by
    intro s h
    rw [← Option.some.inj h]
    decide
  have hos : ∀ s : String, (none : Option String) = some s → s ≠ "" :=
    fun s h => Option.noConfusion h
  refine ⟨hov, hos, ?_⟩
  rw [resolve_auto_detect_precedence (some "0x1000") none (some sample_expdb_bytes) hov hos]
  decide

/-- C4: when the primary extraction command fails (non-zero exit code or a
process-launch error), both extract_expdb and extract_pstore return failure,
write no output file, and never invoke extract_ascii_strings. -/
theorem extraction_failure_no_output (raw1 raw2 : String) (oc : ProcOutcome)
    (read1 read2 : Option (List Nat)) (ov os : Option String) (auto da : Bool)
    (e : Option (List Nat))
    (h : oc = ProcOutcome.launchError ∨ ∃ c, oc = ProcOutcome.exited c ∧ c ≠ 0) :
    ((extract_expdb raw1 oc read1).success = false ∧
      (extract_expdb raw1 oc read1).output_written = none ∧
      (extract_expdb raw1 oc read1).scanner_invoked = false) ∧
    ((extract_pstore raw2 ov os auto da e oc read2).success = false ∧
      (extract_pstore raw2 ov os auto da e oc read2).output_written = none ∧
      (extract_pstore raw2 ov os auto da e oc read2).scanner_invoked = false) := by
  have hrc : run_command oc = false := by
    rcases h with h | ⟨c, rfl, hc⟩
    · rw [h]; rfl
    · simp only [run_command, beq_eq_false_iff_ne, ne_eq]
      exact hc
  simp [extract_expdb, extract_pstore, hrc]

/-- Witness for C4 at exit code 1. -/
theorem extraction_failure_no_output_witness :
    (ProcOutcome.exited 1 = ProcOutcome.launchError ∨
      ∃ c, ProcOutcome.exited 1 = ProcOutcome.exited c ∧ c ≠ 0) ∧
    (((extract_expdb "tmp/expdb.bin" (ProcOutcome.exited 1) none).success = false ∧
      (extract_expdb "tmp/expdb.bin" (ProcOutcome.exited 1) none).output_written = none ∧
      (extract_expdb "tmp/expdb.bin" (ProcOutcome.exited 1) none).scanner_invoked = false) ∧
    ((extract_pstore "tmp/pstore.bin" none none false true none (ProcOutcome.exited 1) none).success = false ∧
      (extract_pstore "tmp/pstore.bin" none none false true none (ProcOutcome.exited 1) none).output_written = none ∧
      (extract_pstore "tmp/pstore.bin" none none false true none (ProcOutcome.exited 1) none).scanner_invoked = false)) :=
  ⟨Or.inr ⟨1, rfl, by decide⟩,
    extraction_failure_no_output "tmp/expdb.bin" "tmp/pstore.bin" (ProcOutcome.exited 1)
      none none none none false true none (Or.inr ⟨1, rfl, by decide⟩)⟩

/-- C5 (code bug evaluation): the claim says every pstore-only flag supplied
under the expdb command produces a warning.  In the code, the warning
condition at line 263 parses as auto_detect or (dont_peek_via_da and command
is not pstore), and --dont-peek-via-da is store_false, so supplying exactly
that flag under expdb makes the condition false: no warning is emitted (first
conjunct), though execution still proceeds and the extraction is still
performed (second conjunct).  Conversely, a bare expdb invocation with no
pstore-only flag at all does emit the warning (third conjunct). -/
theorem dont_peek_flag_under_expdb_no_warning :
    warning_condition (parse_args Cmd.expdb "out.txt" none none none false true) = false ∧
    (main_dispatch (parse_args Cmd.expdb "out.txt" none none none false true)
        "tmp/expdb.bin" none (ProcOutcome.exited 0) (some [])).success = true ∧
    warning_condition (parse_args Cmd.expdb "out.txt" none none none false false) = true := by
  refine ⟨rfl, rfl, rfl⟩

/-- C6 counterexample: main returning False does not map to a non-zero exit
status; the interpreter exits with status 0 because the boolean is discarded. -/
theorem exit_code_for_failed_main_is_zero :
    python_exit_code (logutil_top_level false) = 0 := rfl

/-- C6 amended: the process exit status is 0 whatever boolean main returns. -/
theorem exit_code_always_zero (b : Bool) :
    python_exit_code (logutil_top_level b) = 0 := rfl

/-- C7: with auto-detect not requested, parameter resolution never consults
the detection oracle (the result is the same for any two oracles, since
detect_pstore_addr and with it the expdb extraction are only reached in the
auto-detect branch), and the result is exactly override-or-default for each
component. -/
theorem resolve_without_auto_detect (ov os : Option String)
    (e1 e2 : Option (List Nat))
    (hov : ∀ s, ov = some s → s ≠ "") (hos : ∀ s, os = some s → s ≠ "") :
    resolve_pstore_params ov os false e1 = resolve_pstore_params ov os false e2 ∧
    resolve_pstore_params ov os false e1 = (ov.getD PSTORE_ADDRESS, os.getD PSTORE_SIZE) := by
  have h : ∀ e : Option (List Nat), resolve_pstore_params ov os false e =
      (pyOrStr ov PSTORE_ADDRESS, pyOrStr os PSTORE_SIZE) := fun _ => rfl
  refine ⟨(h e1).trans (h e2).symm, ?_⟩
  rw [h e1, pyOrStr_eq_getD ov _ hov, pyOrStr_eq_getD os _ hos]

/-- Witness for C7: two very different oracles (no dump at all, and a dump in
which detection would find an address) give the same resolved pair, namely
the override for the address and the default for the size. -/
theorem resolve_without_auto_detect_witness :
    (∀ s : String, some "0x1000" = some s → s ≠ "") ∧
    (∀ s : String, (none : Option String) = some s → s ≠ "") ∧
    (resolve_pstore_params (some "0x1000") none false none =
        resolve_pstore_params (some "0x1000") none false (some sample_expdb_bytes) ∧
      resolve_pstore_params (some "0x1000") none false none = ("0x1000", "0xe0000")) := by
  have hov : ∀ s : String, some "0x1000" = some s → s ≠ "" := by
    intro s h
    rw [← Option.some.inj h]
    decide
  have hos : ∀ s : String, (none : Option String) = some s → s ≠ "" :=
    fun s h => Option.noConfusion h
  refine ⟨hov, hos, ?_⟩
  have h := resolve_without_auto_detect (some "0x1000") none none (some sample_expdb_bytes) hov hos
  exact ⟨h.1, h.2.trans (by decide)⟩

/-- C8: whatever the inputs (including auto-detect runs in which the expdb
extraction failed, or in which only one of the two values was detected), the
pair handed to the downstream pstore extraction is fully defined: both
components are non-empty strings, and each is independently filled from the
CLI override, the detected value, or the hardcoded default. -/
theorem pstore_params_always_defined (ov os : Option String) (auto : Bool)
    (e : Option (List Nat)) :
    ((resolve_pstore_params ov os auto e).1 ≠ "" ∧
      (resolve_pstore_params ov os auto e).2 ≠ "") ∧
    ((∃ x, ov = some x ∧ (resolve_pstore_params ov os auto e).1 = x) ∨
      detected_addr e = some (resolve_pstore_params ov os auto e).1 ∨
      (resolve_pstore_params ov os auto e).1 = PSTORE_ADDRESS) ∧
    ((∃ x, os = some x ∧ (resolve_pstore_params ov os auto e).2 = x) ∨
      detected_size e = some (resolve_pstore_params ov os auto e).2 ∨
      (resolve_pstore_params ov os auto e).2 = PSTORE_SIZE) := by
  cases auto with
  | false =>
    have h : resolve_pstore_params ov os false e =
        (pyOrStr ov PSTORE_ADDRESS, pyOrStr os PSTORE_SIZE) := rfl
    rw [h]
    refine ⟨⟨pyOrStr_ne_empty _ _ (by decide), pyOrStr_ne_empty _ _ (by decide)⟩, ?_, ?_⟩
    · rcases pyOrStr_cases ov PSTORE_ADDRESS with hc | ⟨x, hx, hv⟩
      · exact Or.inr (Or.inr hc)
      · exact Or.inl ⟨x, hx, hv⟩
    · rcases pyOrStr_cases os PSTORE_SIZE with hc | ⟨x, hx, hv⟩
      · exact Or.inr (Or.inr hc)
      · exact Or.inl ⟨x, hx, hv⟩
  | true =>
    have h : resolve_pstore_params ov os true e =
        (pyOrStr ov ((detected_addr e).getD PSTORE_ADDRESS),
          pyOrStr os ((detected_size e).getD PSTORE_SIZE)) := by
      have h0 : resolve_pstore_params ov os true e =
          (pyOrStr ov (detect_pstore_addr e).1, pyOrStr os (detect_pstore_addr e).2) := rfl
      rw [h0, detect_pstore_addr_eq]
    rw [h]
    have haddr_ne : (detected_addr e).getD PSTORE_ADDRESS ≠ "" := by
      cases hda : detected_addr e with
      | none => decide
      | some a => exact detected_addr_ne_empty hda
    have hsize_ne : (detected_size e).getD PSTORE_SIZE ≠ "" := by
      cases hds : detected_size e with
      | none => decide
      | some a => exact detected_size_ne_empty hds
    refine ⟨⟨pyOrStr_ne_empty _ _ haddr_ne, pyOrStr_ne_empty _ _ hsize_ne⟩, ?_, ?_⟩
    · rcases pyOrStr_cases ov ((detected_addr e).getD PSTORE_ADDRESS) with hc | ⟨x, hx, hv⟩
      · cases hda : detected_addr e with
        | none =>
          rw [hda] at hc
          exact Or.inr (Or.inr hc)
        | some a =>
          rw [hda] at hc
          exact Or.inr (Or.inl (by rw [hc]; rfl))
      · exact Or.inl ⟨x, hx, hv⟩
    · rcases pyOrStr_cases os ((detected_size e).getD PSTORE_SIZE) with hc | ⟨x, hx, hv⟩
      · cases hds : detected_size e with
        | none =>
          rw [hds] at hc
          exact Or.inr (Or.inr hc)
        | some a =>
          rw [hds] at hc
          exact Or.inr (Or.inl (by rw [hc]; rfl))
      · exact Or.inl ⟨x, hx, hv⟩

/-- C10: the wrong-command warning fires exactly when --auto-detect-pstore is
supplied, or when --dont-peek-via-da is not supplied and the command is not
pstore; in particular a bare expdb invocation (no pstore-only flag) warns, and
a pstore invocation with --auto-detect-pstore warns too. -/
theorem warning_condition_characterization :
    (∀ (cmd : Cmd) (fname : String) (mtk addr size : Option String)
        (auto_sup dont_sup : Bool),
        warning_condition (parse_args cmd fname mtk addr size auto_sup dont_sup) =
          (auto_sup || (!dont_sup && decide (cmd ≠ Cmd.pstore)))) ∧
    warning_condition (parse_args Cmd.expdb "out.txt" none none none false false) = true ∧
    warning_condition (parse_args Cmd.pstore "kernel.log" none none none true false) = true :=
  ⟨fun _ _ _ _ _ _ _ => rfl, rfl, rfl⟩

/-- C3: for every buffer read from a readable binary file and every minimum
length m at least 1 (the code only ever uses the default 4), the text written
by extract_ascii_strings splits at newlines into exactly the header line
followed by the maximal contiguous runs of bytes in [0x20, 0x7E] of length at
least m, decoded as ASCII, one per line, in left-to-right order; and every
such run has length at least m and only bytes in [0x20, 0x7E].  The source
path is assumed newline-free so that the header is a single line. -/
theorem extract_ascii_strings_output_format (filename : String) (data : List Nat)
    (m : Nat) (hm : 1 ≤ m) (hf : '\n' ∉ filename.data) :
    splitLines (extract_ascii_strings_content filename data m).data =
      ascii_header filename ::
        (spec_maximal_runs m data).map (fun r => r.map Char.ofNat) ∧
    ∀ r ∈ spec_maximal_runs m data, m ≤ r.length ∧ ∀ b ∈ r, 0x20 ≤ b ∧ b ≤ 0x7E := by
  have hruns : re_findall_printable m data = spec_maximal_runs m data :=
    re_findall_eq_spec_maximal_runs hm data
  have hmem : ∀ r ∈ re_findall_printable m data, r ≠ [] ∧ ∀ b ∈ r, printable b = true :=
    fun r hr => mem_asciiRuns_printable (List.mem_of_mem_filter hr)
  constructor
  · have hdata : (extract_ascii_strings_content filename data m).data =
        pyJoinNewline (extract_ascii_strings_lines filename data m) := rfl
    rw [hdata]
    have hlines : extract_ascii_strings_lines filename data m =
        ascii_header filename ::
          (spec_maximal_runs m data).map (fun r => r.map Char.ofNat) := by
      unfold extract_ascii_strings_lines
      rw [← hruns]
      congr 1
      exact filterMap_eq_map_of_some pyDecodeAscii (fun r => r.map Char.ofNat) _
        (fun r hr => pyDecodeAscii_of_printable (hmem r hr).2)
    rw [hlines]
    apply splitLines_pyJoin
    · exact ascii_header_no_newline hf
    · intro l hl
      obtain ⟨r, hr, hrl⟩ := List.mem_map.mp hl
      intro hnl
      rw [← hrl] at hnl
      obtain ⟨b, hb, hbeq⟩ := List.mem_map.mp hnl
      have hrunmem : r ∈ re_findall_printable m data := hruns ▸ hr
      exact ofNat_ne_newline ((hmem r hrunmem).2 b hb) hbeq
  · intro r hr
    have hr' : r ∈ re_findall_printable m data := hruns ▸ hr
    constructor
    · have := (List.mem_filter.mp hr').2
      simpa using this
    · intro b hb
      have := (hmem r hr').2 b hb
      simpa [printable] using this

/-- Witness for C3 with the default minimum length 4, a newline-free output
path and a small concrete buffer: four printable bytes, one non-printable
byte, then a too-short printable run. -/
theorem extract_ascii_strings_output_format_witness :
    1 ≤ 4 ∧ '\n' ∉ "out.txt".data ∧
    (splitLines (extract_ascii_strings_content "out.txt" [65, 66, 67, 68, 0, 33] 4).data =
        ascii_header "out.txt" ::
          (spec_maximal_runs 4 [65, 66, 67, 68, 0, 33]).map (fun r => r.map Char.ofNat) ∧
      ∀ r ∈ spec_maximal_runs 4 [65, 66, 67, 68, 0, 33],
        4 ≤ r.length ∧ ∀ b ∈ r, 0x20 ≤ b ∧ b ≤ 0x7E) ∧
    extract_ascii_strings_content "out.txt" [65, 66, 67, 68, 0, 33] 4 =
      "=== ASCII Strings from out.txt ===\nABCD" :=
  ⟨by decide, by decide,
    extract_ascii_strings_output_format "out.txt" [65, 66, 67, 68, 0, 33] 4
      (by decide) (by decide),
    by decide⟩

/-- C9: splitting a buffer as B1 followed by B2 and scanning the halves
separately, every produced match lies entirely inside one of the two halves
(no match spans the split boundary), while a single scan of the whole buffer
produces only maximal runs of the whole buffer: each match has length at
least m, consists of printable bytes, and cannot be extended on either side
(no false merges or splits). -/
theorem scan_concat_no_boundary_span (m : Nat) (B1 B2 : List Nat) (hm : 1 ≤ m) :
    (∀ r ∈ re_findall_printable m B1 ++ re_findall_printable m B2,
        r <:+: B1 ∨ r <:+: B2) ∧
    ∀ r ∈ re_findall_printable m (B1 ++ B2),
        m ≤ r.length ∧ MaximalRunAt (B1 ++ B2) r := by
  constructor
  · intro r hr
    rcases List.mem_append.mp hr with hr | hr
    · obtain ⟨u, v, hB, _, _, _, _⟩ :=
        mem_asciiRuns_maximalRun (List.mem_of_mem_filter hr)
      exact Or.inl ⟨u, v, hB.symm⟩
    · obtain ⟨u, v, hB, _, _, _, _⟩ :=
        mem_asciiRuns_maximalRun (List.mem_of_mem_filter hr)
      exact Or.inr ⟨u, v, hB.symm⟩
  · intro r hr
    refine ⟨?_, mem_asciiRuns_maximalRun (List.mem_of_mem_filter hr)⟩
    have := (List.mem_filter.mp hr).2
    simpa using this

/-- Witness for C9: the halves HIJK and LMNO each scan to their own single
4-byte match lying inside that half, while the whole buffer scans to the
single merged maximal run HIJKLMNO; the boundary-adjacent runs are only found
by rescanning the full buffer. -/
theorem scan_concat_no_boundary_span_witness :
    1 ≤ 4 ∧
    ((∀ r ∈ re_findall_printable 4 [72, 73, 74, 75] ++ re_findall_printable 4 [76, 77, 78, 79],
        r <:+: [72, 73, 74, 75] ∨ r <:+: [76, 77, 78, 79]) ∧
      ∀ r ∈ re_findall_printable 4 ([72, 73, 74, 75] ++ [76, 77, 78, 79]),
        4 ≤ r.length ∧ MaximalRunAt ([72, 73, 74, 75] ++ [76, 77, 78, 79]) r) ∧
    re_findall_printable 4 [72, 73, 74, 75] = [[72, 73, 74, 75]] ∧
    re_findall_printable 4 [76, 77, 78, 79] = [[76, 77, 78, 79]] ∧
    re_findall_printable 4 ([72, 73, 74, 75] ++ [76, 77, 78, 79]) =
      [[72, 73, 74, 75, 76, 77, 78, 79]] :=
  ⟨by decide, scan_concat_no_boundary_span 4 [72, 73, 74, 75] [76, 77, 78, 79] (by decide),
    by decide, by decide, by decide⟩
